import Mathlib

/-!
# Instrumented request pipeline of the go-rest-api service

A shallow embedding of `pkg/middleware/prometheus.go` (the Prometheus
instrumentation middleware and its `bodyWriter`) and of the route table of
`pkg/api/router.go`, followed by the properties of the pipeline that the
specification states about them.

Conventions of the embedding:

* the six metric vectors are process-wide and purely additive, so the registry
  is the log of the operations applied to them; the value of a series is a fold
  over that log;
* observed values (`float64` in the source) are kept as the natural numbers they
  are converted from; the latency is the number of nanoseconds the chain took;
* `gin.ResponseWriter`, `io.Reader`, `io.ReadAll`, `bytes.Buffer` and
  `strconv.Itoa` are library code: they are modelled by their documented
  behaviour;
* the remainder of the handler chain (`c.Next()`) is a parameter: it sees the
  context it is handed and answers with the actions it performs on it and the
  way it exits (normal return, or a panic that unwinds through the caller).
-/

namespace Middleware

/-! ## Library types -/

abbrev Byte := Fin 256

/-- One step of an `io.Reader`: either a block of data, or a failure. A reader
is the list of the steps it will go through; the end of the list is `io.EOF`. -/
inductive ReadEvent where
  | data (p : List Byte)
  | fail (err : String)
deriving DecidableEq, Repr

abbrev Reader := List ReadEvent

/-- The library function `io.ReadAll`: reads until `io.EOF` (reported as a nil
error) or the first failure; returns the data read so far, the error, and the
reader in the state it is left in. -/
def ReadAll : Reader → List Byte × Option String × Reader
  | [] => ([], none, [])
  | .data p :: r => (p ++ (ReadAll r).1, (ReadAll r).2.1, (ReadAll r).2.2)
  | .fail e :: r => ([], some e, r)

/-- The library function `bytes.NewBuffer`, seen as a reader: it yields the
bytes of `buf`, then `io.EOF`; an empty buffer yields `io.EOF` at once. -/
def NewBuffer (buf : List Byte) : Reader :=
  if buf = [] then [] else [.data buf]

/-- The library function `io.NopCloser`: the same reader, with a no-op `Close`. -/
def NopCloser (r : Reader) : Reader := r

/-- The library function `strconv.Itoa`. -/
def Itoa (i : Int) : String := toString i

/-- The part of `http.Request` that the middleware touches. `Body` is `none`
for a nil body. -/
structure Request where
  Method : String
  Path : String
  Body : Option Reader
deriving DecidableEq, Repr

/-- The underlying `gin.ResponseWriter`: its status code, the chunks its `Write`
has received so far (in order), and the answer `(n, err)` it gives to a `Write`
of a chunk after a given history. -/
structure ResponseWriter where
  status : Int
  received : List (List Byte)
  respond : List (List Byte) → List Byte → Nat × Option String

def ResponseWriter.Write (w : ResponseWriter) (b : List Byte) :
    ResponseWriter × (Nat × Option String) :=
  ({ w with received := w.received ++ [b] }, w.respond w.received b)

def ResponseWriter.Status (w : ResponseWriter) : Int := w.status

def ResponseWriter.WriteHeader (w : ResponseWriter) (code : Int) : ResponseWriter :=
  { w with status := code }

/-! ## prometheus.go -/

/-- The struct `bodyWriter` (prometheus.go:138-141): the embedded
`gin.ResponseWriter` and the accumulating `bytes.Buffer`. -/
structure bodyWriter where
  ResponseWriter : ResponseWriter
  body : List Byte

/-- The method `(*bodyWriter).Write` (prometheus.go:143-146):
`w.body.Write(b); return w.ResponseWriter.Write(b)`. -/
def bodyWriter.Write (w : bodyWriter) (b : List Byte) : bodyWriter × (Nat × Option String) :=
  let body := w.body ++ b
  let fwd := w.ResponseWriter.Write b
  ({ ResponseWriter := fwd.1, body := body }, fwd.2)

/-- The promoted method `Status` of the embedded writer. -/
def bodyWriter.Status (w : bodyWriter) : Int := w.ResponseWriter.Status

/-- The part of `gin.Context` that the middleware touches, for a writer of type `W`. -/
structure Context (W : Type) where
  Request : Request
  Writer : W

/-- An operation on one of the metric vectors of prometheus.go:15-72, with the
label values passed to `WithLabelValues`. -/
inductive MetricOp where
  | RequestsInFlightInc (method path : String)
  | RequestsInFlightDec (method path : String)
  | RequestSizeObserve (method path : String) (v : Nat)
  | RequestLatencyObserve (method path status : String) (v : Nat)
  | RequestTotalInc (method path status : String)
  | ErrorRateTotalInc (method path status : String)
  | ResponseSizeObserve (method path status : String) (v : Nat)
deriving DecidableEq, Repr

/-- The registry: the log of the operations applied to the metric vectors. -/
abbrev Registry := List MetricOp

/-- The `path` label value of an operation. -/
def MetricOp.path : MetricOp → String
  | .RequestsInFlightInc _ p => p
  | .RequestsInFlightDec _ p => p
  | .RequestSizeObserve _ p _ => p
  | .RequestLatencyObserve _ p _ _ => p
  | .RequestTotalInc _ p _ => p
  | .ErrorRateTotalInc _ p _ => p
  | .ResponseSizeObserve _ p _ _ => p

/-- The change an operation makes to the gauge series `requests_in_flight{method, path}`. -/
def inFlightDelta (method path : String) : MetricOp → Int
  | .RequestsInFlightInc m p => if m = method ∧ p = path then 1 else 0
  | .RequestsInFlightDec m p => if m = method ∧ p = path then -1 else 0
  | _ => 0

/-- The value of the gauge series `requests_in_flight{method, path}`. -/
def inFlight (reg : Registry) (method path : String) : Int :=
  (reg.map (inFlightDelta method path)).sum

/-- The operations of the log on the gauge `requests_in_flight`. -/
def inFlightOps (reg : Registry) : List MetricOp :=
  reg.filter fun
    | .RequestsInFlightInc _ _ => true
    | .RequestsInFlightDec _ _ => true
    | _ => false

/-- The observations of the histogram `request_size_bytes`, oldest first. -/
def requestSizes (reg : Registry) : List (String × String × Nat) :=
  reg.filterMap fun
    | .RequestSizeObserve m p v => some (m, p, v)
    | _ => none

/-- The observations of the histogram `response_size_bytes`, oldest first. -/
def responseSizes (reg : Registry) : List (String × String × String × Nat) :=
  reg.filterMap fun
    | .ResponseSizeObserve m p s v => some (m, p, s, v)
    | _ => none

/-- The increments of the counter `requests_total`, oldest first. -/
def requestTotals (reg : Registry) : List (String × String × String) :=
  reg.filterMap fun
    | .RequestTotalInc m p s => some (m, p, s)
    | _ => none

/-- The increments of the counter `error_rate_total`, oldest first. -/
def errorRates (reg : Registry) : List (String × String × String) :=
  reg.filterMap fun
    | .ErrorRateTotalInc m p s => some (m, p, s)
    | _ => none

/-- What a stage or handler further down the chain can do to the context. -/
inductive Action where
  | write (b : List Byte)
  | writeHeader (code : Int)
  | setMethod (m : String)
  | setPath (p : String)
deriving DecidableEq, Repr

/-- How `c.Next()` ends: it returns (also after `c.Abort()` by a rejecting
stage), or a handler panics and the panic unwinds through the caller. -/
inductive Exit where
  | returned
  | panicked
deriving DecidableEq, Repr

/-- The behaviour of the remainder of the chain on one request. -/
structure Chain where
  actions : List Action
  exit : Exit
  elapsed : Nat

/-- One action of the chain on the context whose writer is the `bodyWriter`. -/
def step (c : Context bodyWriter) : Action → Context bodyWriter
  | .write b => { c with Writer := (c.Writer.Write b).1 }
  | .writeHeader code =>
      { c with Writer := { c.Writer with ResponseWriter := c.Writer.ResponseWriter.WriteHeader code } }
  | .setMethod m => { c with Request := { c.Request with Method := m } }
  | .setPath p => { c with Request := { c.Request with Path := p } }

/-- The actions of the chain, in order. -/
def runActions (c : Context bodyWriter) (acts : List Action) : Context bodyWriter :=
  acts.foldl step c

/-- The chunks a list of actions writes, in order. -/
def writes (acts : List Action) : List (List Byte) :=
  acts.filterMap fun
    | .write b => some b
    | _ => none

/-- The outcome of the middleware on one request: the context and registry it
leaves, the contexts on which it invoked `c.Next()` (in order), and its exit. -/
structure Result where
  c : Context bodyWriter
  reg : Registry
  nextCalls : List (Context bodyWriter)
  exit : Exit

/-- Lines 88-105 of `PrometheusMiddleware`: the in-flight increment, the
measurement of the request body and the substitution of the writer. -/
def before (reg : Registry) (c : Context ResponseWriter) : Registry × Context bodyWriter :=
  let reg := reg ++ [.RequestsInFlightInc c.Request.Method c.Request.Path]
  let measured : Nat × Request :=
    match c.Request.Body with
    | none => (0, c.Request)
    | some body =>
      match ReadAll body with
      | (bodyBytes, none, _) =>
          (bodyBytes.length, { c.Request with Body := some (NopCloser (NewBuffer bodyBytes)) })
      | (_, some _, rest) => (0, { c.Request with Body := some rest })
  let reg := reg ++ [.RequestSizeObserve c.Request.Method c.Request.Path measured.1]
  let writer : bodyWriter := { ResponseWriter := c.Writer, body := [] }
  (reg, { Request := measured.2, Writer := writer })

/-- Lines 109-133 of `PrometheusMiddleware`: the bookkeeping after `c.Next()`
has returned. -/
def after (reg : Registry) (c : Context bodyWriter) (duration : Nat) : Registry :=
  let status := Itoa c.Writer.Status
  let reg := reg ++ [.RequestLatencyObserve c.Request.Method c.Request.Path status duration]
  let reg := reg ++ [.RequestTotalInc c.Request.Method c.Request.Path status]
  let reg :=
    if c.Writer.Status ≥ 400 then
      reg ++ [.ErrorRateTotalInc c.Request.Method c.Request.Path status]
    else reg
  let reg := reg ++ [.ResponseSizeObserve c.Request.Method c.Request.Path status c.Writer.body.length]
  reg ++ [.RequestsInFlightDec c.Request.Method c.Request.Path]

/-- The handler returned by `PrometheusMiddleware` (prometheus.go:86-135). The
function holds no `defer` and no `recover`: when `c.Next()` panics, the
statements after it do not run. -/
def PrometheusMiddleware (next : Context bodyWriter → Chain) (reg : Registry)
    (c : Context ResponseWriter) : Result :=
  let pre := before reg c
  let chain := next pre.2
  let c2 := runActions pre.2 chain.actions
  match chain.exit with
  | .panicked => { c := c2, reg := pre.1, nextCalls := [pre.2], exit := .panicked }
  | .returned =>
      { c := c2, reg := after pre.1 c2 chain.elapsed, nextCalls := [pre.2], exit := .returned }

/-! ## router.go -/

/-- The segments of a URL path or of a route template. -/
def segments (s : String) : List (List Char) := s.toList.splitOn '/'

/-- The route matching of the gin router, segment by segment: a `:name` segment
of the template matches any non-empty segment, a `*name` segment matches the
rest of the path, any other segment matches itself. -/
def matchSegs : List (List Char) → List (List Char) → Bool
  | [], [] => true
  | t :: ts, p :: ps =>
    match t with
    | ':' :: _ => p ≠ [] && matchSegs ts ps
    | '*' :: _ => true
    | _ => t == p && matchSegs ts ps
  | _, _ => false

/-- The method `(*gin.RouterGroup).Group` followed by the registration of the
routes of the group: every relative path is joined to the base path. -/
def Group (basePath : String) (routes : List (String × String)) : List (String × String) :=
  routes.map fun r => (r.1, basePath ++ r.2)

/-- The route table registered by `SetupRoutes` (router.go:39-51): method and
route template. -/
def SetupRoutes : List (String × String) :=
  Group "/api/v1"
    [("GET", "/"), ("GET", "/books"), ("POST", "/books"), ("GET", "/books/:id"),
     ("PUT", "/books/:id"), ("DELETE", "/books/:id"), ("POST", "/login"),
     ("POST", "/register")]
  ++ [("GET", "/swagger/*any")]

/-- The route template matched by a request (what `c.FullPath()` reports),
`none` when no route matches. -/
def FullPath (req : Request) : Option String :=
  (SetupRoutes.find? fun r => r.1 == req.Method && matchSegs (segments r.2) (segments req.Path)).map
    fun r => r.2

/-! ## The rate limiter of the `/api/v1` group -/

/-- The constant `time.Minute`, in nanoseconds. -/
def Minute : Int := 60 * 1000000000

/-- The library function `rate.Every`: the limit of one refill per `interval`,
kept as that interval. -/
def Every (interval : Int) : Int := interval

/-- Modelled from the spec: the `Bucket` of the rate limiter (spec §3), whose
source file `middleware.RateLimiter` is not part of the sources at hand: the
capacity, the refill interval, the available tokens and the time of the last
refill. -/
structure Bucket where
  capacity : Nat
  refillInterval : Int
  availableTokens : Nat
  lastRefill : Int
deriving DecidableEq, Repr

/-- Modelled from the spec: the constructor `middleware.RateLimiter(every, permits)`
(spec §4.4, §6), missing from the sources: a bucket of capacity `permits`,
refilled every `every`, full when it is created at time `now`. -/
def RateLimiter (every : Int) (permits : Nat) (now : Int) : Bucket :=
  { capacity := permits, refillInterval := every, availableTokens := permits, lastRefill := now }

/-- Modelled from the spec: the refill step of `Admit` (spec §4.4), missing from
the sources: the elapsed time is clamped to be non-negative; when at least one
whole interval has elapsed the bucket is at an interval boundary again and
holds its full capacity. -/
def refill (b : Bucket) (now : Int) : Bucket :=
  let elapsed := max 0 (now - b.lastRefill)
  if elapsed ≥ b.refillInterval then
    { b with availableTokens := b.capacity,
             lastRefill := b.lastRefill + (elapsed / b.refillInterval) * b.refillInterval }
  else b

/-- Modelled from the spec: the operation `Admit` of the token bucket (spec
§4.4), missing from the sources: after the refill step a request is admitted
when a token is available, and takes it. -/
def Admit (b : Bucket) (now : Int) : Bucket × Bool :=
  let b := refill b now
  if b.availableTokens > 0 then
    ({ b with availableTokens := b.availableTokens - 1 }, true)
  else (b, false)

/-- The limiter serving serialized arrivals: for every arrival, the start of
the refill interval it is served in and the decision. -/
def admitLog (b : Bucket) : List Int → List (Int × Bool)
  | [] => []
  | now :: rest => ((refill b now).lastRefill, (Admit b now).2) :: admitLog (Admit b now).1 rest

/-- The limiter of the `/api/v1` group as configured at router.go:40,
`RateLimiter(rate.Every(1*time.Minute), 60)`, created at time `now`. -/
def v1Limiter (now : Int) : Bucket := RateLimiter (Every (1 * Minute)) 60 now

/-- The number of requests of a log admitted in the refill interval that starts at `start`. -/
def admittedIn (start : Int) (log : List (Int × Bool)) : Nat :=
  (log.filter fun e => e.1 = start ∧ e.2 = true).length

/-- The bound on what a bucket can still admit in the interval starting at `start`. -/
def remaining (b : Bucket) (start : Int) : Nat :=
  if start < b.lastRefill then 0 else if start = b.lastRefill then b.availableTokens else b.capacity

/-! ## Sample requests and chains -/

/-- An underlying writer that accepts every chunk in full. -/
def okWriter : ResponseWriter :=
  { status := 200, received := [], respond := fun _ b => (b.length, none) }

/-- A `GET` request with an empty body (`http.NoBody`). -/
def getRequest (path : String) : Context ResponseWriter :=
  { Request := { Method := "GET", Path := path, Body := some [] }, Writer := okWriter }

/-- A `POST /api/v1/books` whose three-byte body arrives in two blocks. -/
def postBooks : Context ResponseWriter :=
  { Request := { Method := "POST", Path := "/api/v1/books", Body := some [.data [1, 2], .data [3]] },
    Writer := okWriter }

/-- A `POST /api/v1/books` whose body fails after one byte. -/
def postBooksBroken : Context ResponseWriter :=
  { Request := { Method := "POST", Path := "/api/v1/books",
                 Body := some [.data [1], .fail "unexpected EOF", .data [2]] },
    Writer := okWriter }

/-- A request built with a nil body. -/
def nilBodyRequest : Context ResponseWriter :=
  { Request := { Method := "GET", Path := "/api/v1/books", Body := none }, Writer := okWriter }

/-- A chain whose handler answers 200 in two chunks. -/
def handlerOK : Context bodyWriter → Chain :=
  fun _ => { actions := [.writeHeader 200, .write [1, 2, 3], .write [], .write [4]],
             exit := .returned, elapsed := 1500 }

/-- A chain cut short by a rejecting stage: status 429 and an error body. -/
def handlerRejects : Context bodyWriter → Chain :=
  fun _ => { actions := [.writeHeader 429, .write [7, 7]], exit := .returned, elapsed := 20 }

/-- A chain whose handler panics after writing ten bytes. -/
def handlerPanics : Context bodyWriter → Chain :=
  fun _ => { actions := [.write [0, 1, 2, 3, 4, 5, 6, 7, 8, 9]], exit := .panicked, elapsed := 30 }

/-- A chain in which a stage rewrites the URL path before the handler answers. -/
def handlerRewrites : Context bodyWriter → Chain :=
  fun _ => { actions := [.setPath "/internal/books", .write [1]], exit := .returned, elapsed := 40 }

/-- The operations a run of the middleware added to the registry `reg`. -/
def newOps (reg : Registry) (r : Result) : List MetricOp := r.reg.drop reg.length

/-- Whether an action rewrites the method or the URL path of the request. -/
def Action.rewrites : Action → Bool
  | .setMethod _ => true
  | .setPath _ => true
  | _ => false

/-! ## Helper lemmas -/

theorem runActions_cons (c : Context bodyWriter) (a : Action) (acts : List Action) :
    runActions c (a :: acts) = runActions (step c a) acts := rfl

theorem runActions_received (acts : List Action) (c : Context bodyWriter) :
    (runActions c acts).Writer.ResponseWriter.received
      = c.Writer.ResponseWriter.received ++ writes acts := by
  induction acts generalizing c with
  | nil => simp [runActions, writes]
  | cons a acts ih =>
    rw [runActions_cons, ih]
    cases a <;>
      simp [step, writes, bodyWriter.Write, ResponseWriter.Write, ResponseWriter.WriteHeader]

theorem runActions_body (acts : List Action) (c : Context bodyWriter) :
    (runActions c acts).Writer.body = c.Writer.body ++ (writes acts).flatten := by
  induction acts generalizing c with
  | nil => simp [runActions, writes]
  | cons a acts ih =>
    rw [runActions_cons, ih]
    cases a <;>
      simp [step, writes, bodyWriter.Write, ResponseWriter.Write, ResponseWriter.WriteHeader]

theorem before_writer (reg : Registry) (c : Context ResponseWriter) :
    (before reg c).2.Writer = { ResponseWriter := c.Writer, body := [] } := rfl

theorem before_method (reg : Registry) (c : Context ResponseWriter) :
    (before reg c).2.Request.Method = c.Request.Method := by
  unfold before
  cases hb : c.Request.Body with
  | none => simp
  | some body =>
    rcases hr : ReadAll body with ⟨d, e, rest⟩
    cases e <;> simp [hr]

theorem before_path (reg : Registry) (c : Context ResponseWriter) :
    (before reg c).2.Request.Path = c.Request.Path := by
  unfold before
  cases hb : c.Request.Body with
  | none => simp
  | some body =>
    rcases hr : ReadAll body with ⟨d, e, rest⟩
    cases e <;> simp [hr]

theorem middleware_returned (next : Context bodyWriter → Chain) (reg : Registry)
    (c : Context ResponseWriter) (h : (next (before reg c).2).exit = .returned) :
    PrometheusMiddleware next reg c =
      { c := runActions (before reg c).2 (next (before reg c).2).actions,
        reg := after (before reg c).1
          (runActions (before reg c).2 (next (before reg c).2).actions)
          (next (before reg c).2).elapsed,
        nextCalls := [(before reg c).2], exit := .returned } := by
  simp [PrometheusMiddleware, h]

theorem middleware_panicked (next : Context bodyWriter → Chain) (reg : Registry)
    (c : Context ResponseWriter) (h : (next (before reg c).2).exit = .panicked) :
    PrometheusMiddleware next reg c =
      { c := runActions (before reg c).2 (next (before reg c).2).actions,
        reg := (before reg c).1,
        nextCalls := [(before reg c).2], exit := .panicked } := by
  simp [PrometheusMiddleware, h]

theorem middleware_context (next : Context bodyWriter → Chain) (reg : Registry)
    (c : Context ResponseWriter) :
    (PrometheusMiddleware next reg c).c
      = runActions (before reg c).2 (next (before reg c).2).actions := by
  cases h : (next (before reg c).2).exit <;> simp [PrometheusMiddleware, h]

theorem middleware_nextCalls (next : Context bodyWriter → Chain) (reg : Registry)
    (c : Context ResponseWriter) :
    (PrometheusMiddleware next reg c).nextCalls = [(before reg c).2] := by
  cases h : (next (before reg c).2).exit <;> simp [PrometheusMiddleware, h]

theorem responseSizes_before (reg : Registry) (c : Context ResponseWriter) :
    responseSizes (before reg c).1 = responseSizes reg := by
  simp [before, responseSizes, List.filterMap_append]

theorem responseSizes_after (reg : Registry) (c : Context bodyWriter) (d : Nat) :
    responseSizes (after reg c d) = responseSizes reg ++
      [(c.Request.Method, c.Request.Path, Itoa c.Writer.Status, c.Writer.body.length)] := by
  unfold after
  split <;> simp [responseSizes, List.filterMap_append]

theorem ReadAll_NewBuffer (buf : List Byte) : ReadAll (NopCloser (NewBuffer buf)) = (buf, none, []) := by
  unfold NopCloser NewBuffer
  split
  · next h => simp [ReadAll, h]
  · simp [ReadAll]

theorem before_nil_body (reg : Registry) (c : Context ResponseWriter)
    (hb : c.Request.Body = none) :
    before reg c =
      (reg ++ [.RequestsInFlightInc c.Request.Method c.Request.Path,
               .RequestSizeObserve c.Request.Method c.Request.Path 0],
       { Request := c.Request, Writer := { ResponseWriter := c.Writer, body := [] } }) := by
  simp [before, hb]

theorem before_read_ok (reg : Registry) (c : Context ResponseWriter) (rd : Reader)
    (hb : c.Request.Body = some rd) (hr : (ReadAll rd).2.1 = none) :
    before reg c =
      (reg ++ [.RequestsInFlightInc c.Request.Method c.Request.Path,
               .RequestSizeObserve c.Request.Method c.Request.Path (ReadAll rd).1.length],
       { Request := { c.Request with Body := some (NopCloser (NewBuffer (ReadAll rd).1)) },
         Writer := { ResponseWriter := c.Writer, body := [] } }) := by
  rcases hra : ReadAll rd with ⟨d, e, rest⟩
  rw [hra] at hr
  simp only at hr
  subst hr
  simp [before, hb, hra]

theorem before_read_fail (reg : Registry) (c : Context ResponseWriter) (rd : Reader) (e : String)
    (hb : c.Request.Body = some rd) (hr : (ReadAll rd).2.1 = some e) :
    before reg c =
      (reg ++ [.RequestsInFlightInc c.Request.Method c.Request.Path,
               .RequestSizeObserve c.Request.Method c.Request.Path 0],
       { Request := { c.Request with Body := some (ReadAll rd).2.2 },
         Writer := { ResponseWriter := c.Writer, body := [] } }) := by
  rcases hra : ReadAll rd with ⟨d, e', rest⟩
  rw [hra] at hr
  simp only at hr
  subst hr
  simp [before, hb, hra]

/-- The size that `before` observes for a request. -/
theorem before_registry (reg : Registry) (c : Context ResponseWriter) :
    ∃ v, (before reg c).1 =
      reg ++ [.RequestsInFlightInc c.Request.Method c.Request.Path,
              .RequestSizeObserve c.Request.Method c.Request.Path v] := by
  cases hb : c.Request.Body with
  | none => exact ⟨0, by rw [before_nil_body reg c hb]⟩
  | some rd =>
    cases hr : (ReadAll rd).2.1 with
    | none => exact ⟨_, by rw [before_read_ok reg c rd hb hr]⟩
    | some e => exact ⟨0, by rw [before_read_fail reg c rd e hb hr]⟩

theorem inFlight_append (a b : Registry) (m p : String) :
    inFlight (a ++ b) m p = inFlight a m p + inFlight b m p := by
  simp [inFlight]

theorem inFlight_before (reg : Registry) (c : Context ResponseWriter) (m p : String) :
    inFlight (before reg c).1 m p
      = inFlight reg m p + (if c.Request.Method = m ∧ c.Request.Path = p then 1 else 0) := by
  obtain ⟨v, hv⟩ := before_registry reg c
  rw [hv, inFlight_append]
  simp [inFlight, inFlightDelta]

theorem inFlight_after (reg : Registry) (c : Context bodyWriter) (d : Nat) (m p : String) :
    inFlight (after reg c d) m p
      = inFlight reg m p + (if c.Request.Method = m ∧ c.Request.Path = p then -1 else 0) := by
  unfold after
  split <;> simp [inFlight, inFlightDelta]

theorem inFlightOps_before (reg : Registry) (c : Context ResponseWriter) :
    inFlightOps (before reg c).1
      = inFlightOps reg ++ [.RequestsInFlightInc c.Request.Method c.Request.Path] := by
  obtain ⟨v, hv⟩ := before_registry reg c
  rw [hv]
  simp [inFlightOps, List.filter_append, List.filter_cons]

theorem inFlightOps_after (reg : Registry) (c : Context bodyWriter) (d : Nat) :
    inFlightOps (after reg c d)
      = inFlightOps reg ++ [.RequestsInFlightDec c.Request.Method c.Request.Path] := by
  unfold after
  split <;> simp [inFlightOps, List.filter_append, List.filter_cons]

theorem requestSizes_after (reg : Registry) (c : Context bodyWriter) (d : Nat) :
    requestSizes (after reg c d) = requestSizes reg := by
  unfold after
  split <;> simp [requestSizes, List.filterMap_append]

theorem requestTotals_before (reg : Registry) (c : Context ResponseWriter) :
    requestTotals (before reg c).1 = requestTotals reg := by
  obtain ⟨v, hv⟩ := before_registry reg c
  rw [hv]
  simp [requestTotals, List.filterMap_append]

theorem errorRates_before (reg : Registry) (c : Context ResponseWriter) :
    errorRates (before reg c).1 = errorRates reg := by
  obtain ⟨v, hv⟩ := before_registry reg c
  rw [hv]
  simp [errorRates, List.filterMap_append]

theorem requestTotals_after (reg : Registry) (c : Context bodyWriter) (d : Nat) :
    requestTotals (after reg c d)
      = requestTotals reg ++ [(c.Request.Method, c.Request.Path, Itoa c.Writer.Status)] := by
  unfold after
  split <;> simp [requestTotals, List.filterMap_append]

theorem errorRates_after (reg : Registry) (c : Context bodyWriter) (d : Nat) :
    errorRates (after reg c d)
      = errorRates reg ++
        (if c.Writer.Status ≥ 400 then
          [(c.Request.Method, c.Request.Path, Itoa c.Writer.Status)] else []) := by
  unfold after
  split <;> simp [errorRates, List.filterMap_append]

/-! ## The response capture -/

/-- Claim C2. Whatever the chain does, the chunks it writes through
`bodyWriter.Write` reach the underlying response writer exactly as written: the
same chunks, in the same order, with the same boundaries, appended to what the
writer had received before; the accumulator holds their concatenation; and when
the chain returns, the middleware records one response-size observation, whose
value is the sum of the lengths of the chunks. -/
theorem bodyWriter_byte_exact_capture (next : Context bodyWriter → Chain) (reg : Registry)
    (c : Context ResponseWriter) :
    (PrometheusMiddleware next reg c).c.Writer.ResponseWriter.received
        = c.Writer.received ++ writes (next (before reg c).2).actions ∧
    (PrometheusMiddleware next reg c).c.Writer.body
        = (writes (next (before reg c).2).actions).flatten ∧
    ((next (before reg c).2).exit = .returned →
      responseSizes (PrometheusMiddleware next reg c).reg = responseSizes reg ++
        [((PrometheusMiddleware next reg c).c.Request.Method,
          (PrometheusMiddleware next reg c).c.Request.Path,
          Itoa (PrometheusMiddleware next reg c).c.Writer.Status,
          ((writes (next (before reg c).2).actions).map List.length).sum)]) := by
  refine ⟨?_, ?_, ?_⟩
  · rw [middleware_context, runActions_received, before_writer]
  · rw [middleware_context, runActions_body, before_writer]; simp
  · intro h
    rw [middleware_returned next reg c h]
    simp only [responseSizes_after, responseSizes_before, runActions_body, before_writer]
    simp [List.length_flatten]

/-- Claim C2, witness: a handler that writes three bytes, an empty chunk and one
more byte, then returns with status 200. -/
theorem bodyWriter_byte_exact_capture_witness :
    (PrometheusMiddleware handlerOK [] postBooks).c.Writer.ResponseWriter.received
        = [] ++ [[1, 2, 3], [], [4]] ∧
    (PrometheusMiddleware handlerOK [] postBooks).c.Writer.body = [1, 2, 3, 4] ∧
    responseSizes (PrometheusMiddleware handlerOK [] postBooks).reg
        = responseSizes [] ++ [("POST", "/api/v1/books", "200", 4)] :=
  ⟨(bodyWriter_byte_exact_capture handlerOK [] postBooks).1,
   (bodyWriter_byte_exact_capture handlerOK [] postBooks).2.1,
   (bodyWriter_byte_exact_capture handlerOK [] postBooks).2.2 (by decide)⟩

/-- Claim C3, as amended. The result `(n, err)` of `bodyWriter.Write(b)` is
exactly the result of the underlying writer on `b`, the underlying writer
receives `b`, and the accumulator grows by all of `b`, whatever the underlying
writer accepted. -/
theorem bodyWriter_Write_result (w : bodyWriter) (b : List Byte) :
    (w.Write b).2 = (w.ResponseWriter.Write b).2 ∧
    (w.Write b).1.ResponseWriter = (w.ResponseWriter.Write b).1 ∧
    (w.Write b).1.body = w.body ++ b ∧
    (w.Write b).1.body.length = w.body.length + b.length := by
  simp [bodyWriter.Write]

/-- Claim C3, counterexample. On an underlying writer that rejects every write
with `(0, broken pipe)`, a `Write` of three bytes returns that failure and the
accumulator still grows by three bytes, not by the zero bytes accepted. -/
theorem bodyWriter_Write_counts_rejected_bytes :
    (bodyWriter.Write
        { ResponseWriter :=
            { status := 200, received := [], respond := fun _ _ => (0, some "broken pipe") },
          body := [] } [1, 2, 3]).2 = (0, some "broken pipe") ∧
    (bodyWriter.Write
        { ResponseWriter :=
            { status := 200, received := [], respond := fun _ _ => (0, some "broken pipe") },
          body := [] } [1, 2, 3]).1.body.length = 3 ∧
    (bodyWriter.Write
        { ResponseWriter :=
            { status := 200, received := [], respond := fun _ _ => (0, some "broken pipe") },
          body := [] } [1, 2, 3]).1.body.length
      ≠ 0 + (bodyWriter.Write
        { ResponseWriter :=
            { status := 200, received := [], respond := fun _ _ => (0, some "broken pipe") },
          body := [] } [1, 2, 3]).2.1 := by
  decide

/-! ## The in-flight gauge -/

theorem runActions_request (acts : List Action) (c : Context bodyWriter)
    (h : ∀ a ∈ acts, a.rewrites = false) :
    (runActions c acts).Request.Method = c.Request.Method ∧
    (runActions c acts).Request.Path = c.Request.Path := by
  induction acts generalizing c with
  | nil => simp [runActions]
  | cons a acts ih =>
    rw [runActions_cons]
    have ha := h a (List.mem_cons_self a acts)
    have hrest := ih (step c a) (fun b hb => h b (List.mem_cons_of_mem a hb))
    cases a <;> simp_all [step, Action.rewrites]

/-- When the chain panics, the decrement is skipped: the series incremented at
entry stays one above its value before the request. -/
theorem in_flight_after_panic (next : Context bodyWriter → Chain) (reg : Registry)
    (c : Context ResponseWriter) (h : (next (before reg c).2).exit = .panicked) :
    inFlight (PrometheusMiddleware next reg c).reg c.Request.Method c.Request.Path
      = inFlight reg c.Request.Method c.Request.Path + 1 := by
  rw [middleware_panicked next reg c h]
  simp [inFlight_before]

/-- Claim C1, the code at the failing input. A handler that panics after writing
ten bytes: the panic leaves the middleware, the only operation on the in-flight
gauge is the increment, the series `GET /api/v1/books/1` goes from 0 to 1 and
stays there, and no response size is observed although ten bytes were captured. -/
theorem in_flight_gauge_leaks_on_panic :
    (PrometheusMiddleware handlerPanics [] (getRequest "/api/v1/books/1")).exit = .panicked ∧
    inFlight [] "GET" "/api/v1/books/1" = 0 ∧
    inFlight (PrometheusMiddleware handlerPanics [] (getRequest "/api/v1/books/1")).reg
      "GET" "/api/v1/books/1" = 1 ∧
    inFlightOps (PrometheusMiddleware handlerPanics [] (getRequest "/api/v1/books/1")).reg
      = [.RequestsInFlightInc "GET" "/api/v1/books/1"] ∧
    (PrometheusMiddleware handlerPanics [] (getRequest "/api/v1/books/1")).c.Writer.body.length = 10 ∧
    responseSizes (PrometheusMiddleware handlerPanics [] (getRequest "/api/v1/books/1")).reg = [] ∧
    requestTotals (PrometheusMiddleware handlerPanics [] (getRequest "/api/v1/books/1")).reg = [] := by
  decide

/-- Claim C10. When `c.Next()` returns, the middleware has applied to the
in-flight gauge exactly one `Inc`, on the series of the method and URL path at
entry, and exactly one `Dec`, on the series of the method and URL path at exit.
If no stage of the chain rewrites the method or the URL path, these are the same
series; whenever they are the same series its value after the middleware is its
value before. If the method or the URL path at exit differs from the one at
entry, the `Dec` goes to that other series: the series of entry ends one above
and the series of exit one below their values before. -/
theorem in_flight_inc_dec_series (next : Context bodyWriter → Chain) (reg : Registry)
    (c : Context ResponseWriter) (h : (next (before reg c).2).exit = .returned) :
    inFlightOps (PrometheusMiddleware next reg c).reg
      = inFlightOps reg ++
        [.RequestsInFlightInc c.Request.Method c.Request.Path,
         .RequestsInFlightDec (PrometheusMiddleware next reg c).c.Request.Method
            (PrometheusMiddleware next reg c).c.Request.Path] ∧
    ((∀ a ∈ (next (before reg c).2).actions, a.rewrites = false) →
      (PrometheusMiddleware next reg c).c.Request.Method = c.Request.Method ∧
      (PrometheusMiddleware next reg c).c.Request.Path = c.Request.Path) ∧
    ((PrometheusMiddleware next reg c).c.Request.Method = c.Request.Method ∧
      (PrometheusMiddleware next reg c).c.Request.Path = c.Request.Path →
      inFlight (PrometheusMiddleware next reg c).reg c.Request.Method c.Request.Path
        = inFlight reg c.Request.Method c.Request.Path) ∧
    (¬ ((PrometheusMiddleware next reg c).c.Request.Method = c.Request.Method ∧
        (PrometheusMiddleware next reg c).c.Request.Path = c.Request.Path) →
      inFlight (PrometheusMiddleware next reg c).reg c.Request.Method c.Request.Path
        = inFlight reg c.Request.Method c.Request.Path + 1 ∧
      inFlight (PrometheusMiddleware next reg c).reg
          (PrometheusMiddleware next reg c).c.Request.Method
          (PrometheusMiddleware next reg c).c.Request.Path
        = inFlight reg (PrometheusMiddleware next reg c).c.Request.Method
            (PrometheusMiddleware next reg c).c.Request.Path - 1) := by
  rw [middleware_returned next reg c h]
  refine ⟨?_, ?_, ?_, ?_⟩
  · simp [inFlightOps_after, inFlightOps_before]
  · intro hno
    have := runActions_request _ (before reg c).2 hno
    simpa [before_method, before_path] using this
  · intro hsame
    simp only at hsame
    simp only [inFlight_after, inFlight_before]
    rw [if_pos hsame]
    simp
  · intro hdiff
    simp only [inFlight_after, inFlight_before]
    have hdiff' : ¬ (c.Request.Method
          = (runActions (before reg c).2 (next (before reg c).2).actions).Request.Method ∧
        c.Request.Path
          = (runActions (before reg c).2 (next (before reg c).2).actions).Request.Path) := by
      intro hc
      exact hdiff ⟨hc.1.symm, hc.2.symm⟩
    simp only at hdiff
    rw [if_neg hdiff, if_neg hdiff']
    simp
    ring

/-- Claim C10, witness: a chain that returns after a rejection with status 429. -/
theorem in_flight_inc_dec_series_witness :
    inFlightOps (PrometheusMiddleware handlerRejects [] postBooks).reg
      = inFlightOps [] ++
        [.RequestsInFlightInc "POST" "/api/v1/books", .RequestsInFlightDec "POST" "/api/v1/books"] ∧
    inFlight (PrometheusMiddleware handlerRejects [] postBooks).reg "POST" "/api/v1/books" = 0 ∧
    inFlight (PrometheusMiddleware handlerRewrites [] postBooks).reg "POST" "/api/v1/books" = 1 ∧
    inFlight (PrometheusMiddleware handlerRewrites [] postBooks).reg "POST" "/internal/books" = -1 :=
  ⟨(in_flight_inc_dec_series handlerRejects [] postBooks (by decide)).1,
   (in_flight_inc_dec_series handlerRejects [] postBooks (by decide)).2.2.1 (by decide),
   ((in_flight_inc_dec_series handlerRewrites [] postBooks (by decide)).2.2.2 (by decide)).1,
   ((in_flight_inc_dec_series handlerRewrites [] postBooks (by decide)).2.2.2 (by decide)).2⟩

/-! ## The request body -/

/-- Claim C4. When the request body reads to its end without error, with
content `(ReadAll rd).1`, the middleware invokes `c.Next()` on a context whose
request body is present and reads, without error and to its end, as exactly the
same bytes; method and URL path are those of the request. -/
theorem request_body_replayed (next : Context bodyWriter → Chain) (reg : Registry)
    (c : Context ResponseWriter) (rd : Reader)
    (hb : c.Request.Body = some rd) (hr : (ReadAll rd).2.1 = none) :
    ∃ c1 body, (PrometheusMiddleware next reg c).nextCalls = [c1] ∧
      c1.Request.Body = some body ∧
      ReadAll body = ((ReadAll rd).1, none, []) ∧
      c1.Request.Method = c.Request.Method ∧ c1.Request.Path = c.Request.Path := by
  refine ⟨(before reg c).2, NopCloser (NewBuffer (ReadAll rd).1), middleware_nextCalls next reg c,
    ?_, ReadAll_NewBuffer _, before_method reg c, before_path reg c⟩
  rw [before_read_ok reg c rd hb hr]

/-- Claim C4, witness: a three-byte body that arrives in two blocks. -/
theorem request_body_replayed_witness :
    ∃ c1 body, (PrometheusMiddleware handlerOK [] postBooks).nextCalls = [c1] ∧
      c1.Request.Body = some body ∧
      ReadAll body = ((ReadAll [.data [1, 2], .data [3]]).1, none, []) ∧
      c1.Request.Method = "POST" ∧ c1.Request.Path = "/api/v1/books" :=
  request_body_replayed handlerOK [] postBooks [.data [1, 2], .data [3]] rfl (by decide)

/-- Claim C5. Every run of the middleware records exactly one request-size
observation, on the series of the request's method and URL path. Its value is
the length of the body when the body is present and reads without error, so 0
for an empty body, and 0 when the body is absent. For a present body of zero
bytes the chain is invoked on a context whose body is present and reads, without
error, as no bytes. -/
theorem request_size_observed_once (next : Context bodyWriter → Chain) (reg : Registry)
    (c : Context ResponseWriter) :
    (∃ v, requestSizes (PrometheusMiddleware next reg c).reg
        = requestSizes reg ++ [(c.Request.Method, c.Request.Path, v)] ∧
      (∀ rd, c.Request.Body = some rd → (ReadAll rd).2.1 = none → v = (ReadAll rd).1.length) ∧
      (∀ rd, c.Request.Body = some rd → (ReadAll rd).2.1 = none → (ReadAll rd).1 = [] → v = 0) ∧
      (c.Request.Body = none → v = 0)) ∧
    (∀ rd, c.Request.Body = some rd → (ReadAll rd).2.1 = none → (ReadAll rd).1 = [] →
      ∃ c1 body, (PrometheusMiddleware next reg c).nextCalls = [c1] ∧
        c1.Request.Body = some body ∧ ReadAll body = ([], none, [])) := by
  have hsizes : ∀ v, (before reg c).1 =
      reg ++ [.RequestsInFlightInc c.Request.Method c.Request.Path,
              .RequestSizeObserve c.Request.Method c.Request.Path v] →
      requestSizes (PrometheusMiddleware next reg c).reg
        = requestSizes reg ++ [(c.Request.Method, c.Request.Path, v)] := by
    intro v hv
    cases h : (next (before reg c).2).exit with
    | returned =>
      rw [middleware_returned next reg c h]
      simp only [requestSizes_after]
      rw [hv]
      simp [requestSizes, List.filterMap_append]
    | panicked =>
      rw [middleware_panicked next reg c h]
      simp only
      rw [hv]
      simp [requestSizes, List.filterMap_append]
  constructor
  · cases hb : c.Request.Body with
    | none =>
      refine ⟨0, hsizes 0 (by rw [before_nil_body reg c hb]), ?_, ?_, ?_⟩ <;> simp
    | some rd =>
      cases hr : (ReadAll rd).2.1 with
      | none =>
        refine ⟨(ReadAll rd).1.length, hsizes _ (by rw [before_read_ok reg c rd hb hr]), ?_, ?_, ?_⟩
        · intro rd' hrd' _
          cases hrd'
          rfl
        · intro rd' hrd' _ hempty
          cases hrd'
          simp [hempty]
        · simp
      | some e =>
        refine ⟨0, hsizes 0 (by rw [before_read_fail reg c rd e hb hr]), ?_, ?_, ?_⟩
        · intro rd' hrd' hnone
          cases hrd'
          rw [hr] at hnone
          cases hnone
        · intro _ _ _ _
          rfl
        · simp
  · intro rd hb hr hempty
    refine ⟨(before reg c).2, NopCloser (NewBuffer (ReadAll rd).1), middleware_nextCalls next reg c,
      ?_, ?_⟩
    · rw [before_read_ok reg c rd hb hr]
    · rw [ReadAll_NewBuffer, hempty]

/-- Claim C5, witness: a `GET` with a zero-byte body, and a request whose body is nil. -/
theorem request_size_observed_once_witness :
    (∃ v, requestSizes (PrometheusMiddleware handlerOK [] (getRequest "/api/v1/books")).reg
        = requestSizes [] ++ [("GET", "/api/v1/books", v)] ∧ v = 0) ∧
    (∃ c1 body, (PrometheusMiddleware handlerOK [] (getRequest "/api/v1/books")).nextCalls = [c1] ∧
        c1.Request.Body = some body ∧ ReadAll body = ([], none, [])) ∧
    (∃ v, requestSizes (PrometheusMiddleware handlerOK [] nilBodyRequest).reg
        = requestSizes [] ++ [("GET", "/api/v1/books", v)] ∧ v = 0) :=
  ⟨(request_size_observed_once handlerOK [] (getRequest "/api/v1/books")).1.imp
      (fun _ hv => ⟨hv.1, hv.2.2.1 [] rfl (by decide) (by decide)⟩),
   (request_size_observed_once handlerOK [] (getRequest "/api/v1/books")).2 [] rfl
      (by decide) (by decide),
   (request_size_observed_once handlerOK [] nilBodyRequest).1.imp
      (fun _ hv => ⟨hv.1, hv.2.2.2 rfl⟩)⟩

/-- Claim C6. When reading the request body fails, the middleware records one
request-size observation of value 0, invokes `c.Next()` exactly once, and ends
the way the chain ends; when the chain returns, the post-processing of lines
109-133 runs on the registry as usual: one latency observation, one
request-total increment, one response-size observation, and the in-flight
decrement as the last operation. -/
theorem body_read_failure_degrades (next : Context bodyWriter → Chain) (reg : Registry)
    (c : Context ResponseWriter) (rd : Reader) (e : String)
    (hb : c.Request.Body = some rd) (hr : (ReadAll rd).2.1 = some e) :
    requestSizes (PrometheusMiddleware next reg c).reg
      = requestSizes reg ++ [(c.Request.Method, c.Request.Path, 0)] ∧
    (PrometheusMiddleware next reg c).nextCalls.length = 1 ∧
    (PrometheusMiddleware next reg c).exit = (next (before reg c).2).exit ∧
    ((next (before reg c).2).exit = .returned →
      (PrometheusMiddleware next reg c).reg
        = after (reg ++ [.RequestsInFlightInc c.Request.Method c.Request.Path,
                         .RequestSizeObserve c.Request.Method c.Request.Path 0])
            (PrometheusMiddleware next reg c).c (next (before reg c).2).elapsed ∧
      requestTotals (PrometheusMiddleware next reg c).reg
        = requestTotals reg ++
          [((PrometheusMiddleware next reg c).c.Request.Method,
            (PrometheusMiddleware next reg c).c.Request.Path,
            Itoa (PrometheusMiddleware next reg c).c.Writer.Status)] ∧
      (responseSizes (PrometheusMiddleware next reg c).reg).length
        = (responseSizes reg).length + 1 ∧
      (PrometheusMiddleware next reg c).reg.getLast?
        = some (.RequestsInFlightDec (PrometheusMiddleware next reg c).c.Request.Method
            (PrometheusMiddleware next reg c).c.Request.Path)) := by
  have hv := before_read_fail reg c rd e hb hr
  refine ⟨?_, ?_, ?_, ?_⟩
  · cases h : (next (before reg c).2).exit with
    | returned =>
      rw [middleware_returned next reg c h]
      simp only [requestSizes_after]
      rw [hv]
      simp [requestSizes, List.filterMap_append]
    | panicked =>
      rw [middleware_panicked next reg c h]
      simp only
      rw [hv]
      simp [requestSizes, List.filterMap_append]
  · rw [middleware_nextCalls]; rfl
  · cases h : (next (before reg c).2).exit with
    | returned => rw [middleware_returned next reg c h]
    | panicked => rw [middleware_panicked next reg c h]
  · intro h
    have hreg : (before reg c).1 = reg ++ [.RequestsInFlightInc c.Request.Method c.Request.Path,
        .RequestSizeObserve c.Request.Method c.Request.Path 0] := by rw [hv]
    rw [middleware_returned next reg c h]
    refine ⟨by simp only [hreg], ?_, ?_, ?_⟩
    · simp only [requestTotals_after, requestTotals_before]
    · simp only [responseSizes_after, responseSizes_before]
      simp
    · simp only
      unfold after
      simp

/-- Claim C6, witness: a body that fails with `unexpected EOF` after one byte. -/
theorem body_read_failure_degrades_witness :
    requestSizes (PrometheusMiddleware handlerOK [] postBooksBroken).reg
      = requestSizes [] ++ [("POST", "/api/v1/books", 0)] ∧
    (PrometheusMiddleware handlerOK [] postBooksBroken).nextCalls.length = 1 ∧
    (PrometheusMiddleware handlerOK [] postBooksBroken).exit = .returned ∧
    (PrometheusMiddleware handlerOK [] postBooksBroken).reg.getLast?
      = some (.RequestsInFlightDec "POST" "/api/v1/books") :=
  ⟨(body_read_failure_degrades handlerOK [] postBooksBroken
      [.data [1], .fail "unexpected EOF", .data [2]] "unexpected EOF" rfl (by decide)).1,
   (body_read_failure_degrades handlerOK [] postBooksBroken
      [.data [1], .fail "unexpected EOF", .data [2]] "unexpected EOF" rfl (by decide)).2.1,
   (body_read_failure_degrades handlerOK [] postBooksBroken
      [.data [1], .fail "unexpected EOF", .data [2]] "unexpected EOF" rfl (by decide)).2.2.1,
   ((body_read_failure_degrades handlerOK [] postBooksBroken
      [.data [1], .fail "unexpected EOF", .data [2]] "unexpected EOF" rfl (by decide)).2.2.2
      (by decide)).2.2.2⟩

/-! ## The counters -/

/-- Claim C7. When the chain returns, the middleware increments `requests_total`
exactly once, on the series of the method and URL path of the request and the
final status code; it increments `error_rate_total` exactly once, on the same
labels, when the final status code is at least 400, and not at all when it is
below 400. -/
theorem request_total_and_error_rate (next : Context bodyWriter → Chain) (reg : Registry)
    (c : Context ResponseWriter) (h : (next (before reg c).2).exit = .returned) :
    requestTotals (PrometheusMiddleware next reg c).reg
      = requestTotals reg ++
        [((PrometheusMiddleware next reg c).c.Request.Method,
          (PrometheusMiddleware next reg c).c.Request.Path,
          Itoa (PrometheusMiddleware next reg c).c.Writer.Status)] ∧
    ((PrometheusMiddleware next reg c).c.Writer.Status ≥ 400 →
      errorRates (PrometheusMiddleware next reg c).reg
        = errorRates reg ++
          [((PrometheusMiddleware next reg c).c.Request.Method,
            (PrometheusMiddleware next reg c).c.Request.Path,
            Itoa (PrometheusMiddleware next reg c).c.Writer.Status)]) ∧
    ((PrometheusMiddleware next reg c).c.Writer.Status < 400 →
      errorRates (PrometheusMiddleware next reg c).reg = errorRates reg) := by
  rw [middleware_returned next reg c h]
  refine ⟨?_, ?_, ?_⟩
  · simp only [requestTotals_after, requestTotals_before]
  · intro hs
    simp only at hs
    simp only [errorRates_after, errorRates_before]
    rw [if_pos hs]
  · intro hs
    simp only at hs
    simp only [errorRates_after, errorRates_before]
    rw [if_neg (not_le.mpr hs)]
    simp

/-- Claim C7, witness: a request answered 200 and a request rejected with 429. -/
theorem request_total_and_error_rate_witness :
    requestTotals (PrometheusMiddleware handlerOK [] postBooks).reg
      = requestTotals [] ++ [("POST", "/api/v1/books", "200")] ∧
    errorRates (PrometheusMiddleware handlerOK [] postBooks).reg = errorRates [] ∧
    requestTotals (PrometheusMiddleware handlerRejects [] postBooks).reg
      = requestTotals [] ++ [("POST", "/api/v1/books", "429")] ∧
    errorRates (PrometheusMiddleware handlerRejects [] postBooks).reg
      = errorRates [] ++ [("POST", "/api/v1/books", "429")] :=
  ⟨(request_total_and_error_rate handlerOK [] postBooks (by decide)).1,
   (request_total_and_error_rate handlerOK [] postBooks (by decide)).2.2 (by decide),
   (request_total_and_error_rate handlerRejects [] postBooks (by decide)).1,
   (request_total_and_error_rate handlerRejects [] postBooks (by decide)).2.1 (by decide)⟩

/-! ## The path label -/

theorem newOps_path (next : Context bodyWriter → Chain) (reg : Registry)
    (c : Context ResponseWriter) :
    ∀ op ∈ newOps reg (PrometheusMiddleware next reg c),
      op.path = c.Request.Path ∨ op.path = (PrometheusMiddleware next reg c).c.Request.Path := by
  obtain ⟨v, hv⟩ := before_registry reg c
  intro op hop
  cases h : (next (before reg c).2).exit with
  | panicked =>
    rw [middleware_panicked next reg c h] at hop ⊢
    simp only [newOps, hv] at hop
    simp at hop
    rcases hop with rfl | rfl <;> exact Or.inl rfl
  | returned =>
    rw [middleware_returned next reg c h] at hop ⊢
    simp only [newOps, hv] at hop
    unfold after at hop
    split at hop <;> simp at hop
    · rcases hop with rfl | rfl | rfl | rfl | rfl | rfl | rfl
      · exact Or.inl rfl
      · exact Or.inl rfl
      all_goals exact Or.inr rfl
    · rcases hop with rfl | rfl | rfl | rfl | rfl | rfl
      · exact Or.inl rfl
      · exact Or.inl rfl
      all_goals exact Or.inr rfl

/-- Claim C8, as amended. The path label of every operation the middleware
applies to a metric is the raw URL path of the request, `c.Request.URL.Path`, as
it stands when the operation is applied (at entry, or after the chain); the
route template is not consulted. When the chain leaves the URL path alone, every
operation carries the URL path of the request; consequently two requests whose
URL paths differ (such as two values of `:id` on one route) update series with
different path labels. -/
theorem path_label_is_raw_url_path (next : Context bodyWriter → Chain) (reg : Registry)
    (c : Context ResponseWriter) :
    (∀ op ∈ newOps reg (PrometheusMiddleware next reg c),
      op.path = c.Request.Path ∨ op.path = (PrometheusMiddleware next reg c).c.Request.Path) ∧
    ((PrometheusMiddleware next reg c).c.Request.Path = c.Request.Path →
      ∀ op ∈ newOps reg (PrometheusMiddleware next reg c), op.path = c.Request.Path) ∧
    (∀ (next2 : Context bodyWriter → Chain) (reg2 : Registry) (c2 : Context ResponseWriter),
      (PrometheusMiddleware next reg c).c.Request.Path = c.Request.Path →
      (PrometheusMiddleware next2 reg2 c2).c.Request.Path = c2.Request.Path →
      c.Request.Path ≠ c2.Request.Path →
      ∀ op ∈ newOps reg (PrometheusMiddleware next reg c),
        ∀ op2 ∈ newOps reg2 (PrometheusMiddleware next2 reg2 c2), op.path ≠ op2.path) := by
  have key : ∀ (n : Context bodyWriter → Chain) (r : Registry) (x : Context ResponseWriter),
      (PrometheusMiddleware n r x).c.Request.Path = x.Request.Path →
      ∀ op ∈ newOps r (PrometheusMiddleware n r x), op.path = x.Request.Path := by
    intro n r x hx op hop
    rcases newOps_path n r x op hop with h | h
    · exact h
    · rw [h, hx]
  refine ⟨newOps_path next reg c, key next reg c, ?_⟩
  intro next2 reg2 c2 h1 h2 hne op hop op2 hop2
  rw [key next reg c h1 op hop, key next2 reg2 c2 h2 op2 hop2]
  exact hne

/-- Claim C8, witness: `GET /api/v1/books/1` and `GET /api/v1/books/2`. -/
theorem path_label_is_raw_url_path_witness :
    (∀ op ∈ newOps [] (PrometheusMiddleware handlerOK [] (getRequest "/api/v1/books/1")),
      op.path = "/api/v1/books/1") ∧
    (∀ op ∈ newOps [] (PrometheusMiddleware handlerOK [] (getRequest "/api/v1/books/1")),
      ∀ op2 ∈ newOps [] (PrometheusMiddleware handlerOK [] (getRequest "/api/v1/books/2")),
        op.path ≠ op2.path) :=
  ⟨(path_label_is_raw_url_path handlerOK [] (getRequest "/api/v1/books/1")).2.1 (by decide),
   (path_label_is_raw_url_path handlerOK [] (getRequest "/api/v1/books/1")).2.2
      handlerOK [] (getRequest "/api/v1/books/2") (by decide) (by decide) (by decide)⟩

/-- Claim C8, counterexample. `GET /api/v1/books/1` and `GET /api/v1/books/2`
match the same route template `/api/v1/books/:id`, yet the middleware labels
the in-flight, request-size, latency, request-total, response-size operations
of the first with the path `/api/v1/books/1` and those of the second with
`/api/v1/books/2`: no operation carries the template, and the two requests
increment different `requests_total` series. -/
theorem path_label_is_not_route_template :
    FullPath (getRequest "/api/v1/books/1").Request = some "/api/v1/books/:id" ∧
    FullPath (getRequest "/api/v1/books/2").Request = some "/api/v1/books/:id" ∧
    (newOps [] (PrometheusMiddleware handlerOK [] (getRequest "/api/v1/books/1"))).map MetricOp.path
      = ["/api/v1/books/1", "/api/v1/books/1", "/api/v1/books/1", "/api/v1/books/1",
         "/api/v1/books/1", "/api/v1/books/1"] ∧
    (newOps [] (PrometheusMiddleware handlerOK [] (getRequest "/api/v1/books/2"))).map MetricOp.path
      = ["/api/v1/books/2", "/api/v1/books/2", "/api/v1/books/2", "/api/v1/books/2",
         "/api/v1/books/2", "/api/v1/books/2"] ∧
    requestTotals (PrometheusMiddleware handlerOK [] (getRequest "/api/v1/books/1")).reg
      = [("GET", "/api/v1/books/1", "200")] ∧
    requestTotals (PrometheusMiddleware handlerOK [] (getRequest "/api/v1/books/2")).reg
      = [("GET", "/api/v1/books/2", "200")] ∧
    ¬ (∀ op ∈ newOps [] (PrometheusMiddleware handlerOK [] (getRequest "/api/v1/books/1")),
        some op.path = FullPath (getRequest "/api/v1/books/1").Request) := by
  decide

/-! ## The rate limiter -/

theorem refill_of_lt (b : Bucket) (now : Int)
    (h : max 0 (now - b.lastRefill) < b.refillInterval) : refill b now = b := by
  unfold refill
  simp only
  rw [if_neg (not_le.mpr h)]

theorem refill_of_ge (b : Bucket) (now : Int) (hI : 0 < b.refillInterval)
    (h : b.refillInterval ≤ max 0 (now - b.lastRefill)) :
    (refill b now).availableTokens = b.capacity ∧ (refill b now).capacity = b.capacity ∧
    (refill b now).refillInterval = b.refillInterval ∧
    b.lastRefill < (refill b now).lastRefill := by
  unfold refill
  simp only
  rw [if_pos h]
  refine ⟨rfl, rfl, rfl, ?_⟩
  simp only
  have hk : 1 ≤ max 0 (now - b.lastRefill) / b.refillInterval :=
    (Int.le_ediv_iff_mul_le hI).mpr (by simpa using h)
  nlinarith

theorem Admit_fields (b : Bucket) (now : Int) :
    (Admit b now).1.refillInterval = (refill b now).refillInterval ∧
    (Admit b now).1.capacity = (refill b now).capacity ∧
    (Admit b now).1.lastRefill = (refill b now).lastRefill ∧
    (Admit b now).1.availableTokens + (if (Admit b now).2 = true then 1 else 0)
      = (refill b now).availableTokens := by
  unfold Admit
  simp only
  split
  · next h => simp; omega
  · simp

theorem Admit_props (b : Bucket) (now : Int) (hI : 0 < b.refillInterval)
    (hcap : b.availableTokens ≤ b.capacity) :
    (Admit b now).1.refillInterval = b.refillInterval ∧
    (Admit b now).1.capacity = b.capacity ∧
    (Admit b now).1.lastRefill = (refill b now).lastRefill ∧
    (Admit b now).1.availableTokens ≤ b.capacity ∧
    (((refill b now).lastRefill = b.lastRefill ∧
        (Admit b now).1.availableTokens + (if (Admit b now).2 = true then 1 else 0)
          = b.availableTokens) ∨
     (b.lastRefill < (refill b now).lastRefill ∧
        (Admit b now).1.availableTokens + (if (Admit b now).2 = true then 1 else 0)
          = b.capacity)) := by
  obtain ⟨f1, f2, f3, f4⟩ := Admit_fields b now
  rcases lt_or_le (max 0 (now - b.lastRefill)) b.refillInterval with h | h
  · have hr := refill_of_lt b now h
    rw [hr] at f1 f2 f3 f4 ⊢
    refine ⟨f1, f2, f3, by omega, Or.inl ⟨rfl, f4⟩⟩
  · obtain ⟨h1, h2, h3, h4⟩ := refill_of_ge b now hI h
    refine ⟨f1.trans h3, f2.trans h2, f3, by omega, Or.inr ⟨h4, by omega⟩⟩

theorem admittedIn_cons (start : Int) (e : Int × Bool) (log : List (Int × Bool)) :
    admittedIn start (e :: log)
      = (if e.1 = start ∧ e.2 = true then 1 else 0) + admittedIn start log := by
  unfold admittedIn
  rw [List.filter_cons]
  split <;> simp_all
  omega

theorem admittedIn_le_remaining (ts : List Int) (b : Bucket) (start : Int)
    (hI : 0 < b.refillInterval) (hcap : b.availableTokens ≤ b.capacity) :
    admittedIn start (admitLog b ts) ≤ remaining b start := by
  induction ts generalizing b with
  | nil => simp [admitLog, admittedIn]
  | cons now rest ih =>
    rw [admitLog, admittedIn_cons]
    obtain ⟨p1, p2, p3, p4, p5⟩ := Admit_props b now hI hcap
    have hrec := ih (Admit b now).1 (by rw [p1]; exact hI) (by rw [p2]; exact p4)
    unfold remaining at hrec ⊢
    rw [p3, p2] at hrec
    simp only
    generalize (Admit b now).1.availableTokens = tok at *
    generalize (Admit b now).2 = ok at *
    generalize (refill b now).lastRefill = L at *
    generalize admittedIn start (admitLog (Admit b now).1 rest) = n at *
    cases ok <;> simp at p5 ⊢ <;> split_ifs at hrec ⊢ <;> omega

theorem Admit_of_lt (b : Bucket) (now : Int) (hI : 0 < b.refillInterval)
    (h : now < b.lastRefill + b.refillInterval) :
    Admit b now =
      if b.availableTokens > 0 then
        ({ b with availableTokens := b.availableTokens - 1 }, true)
      else (b, false) := by
  have hr : refill b now = b := refill_of_lt b now (max_lt hI (by omega))
  unfold Admit
  simp only [hr]

theorem admitLog_within_interval (ts : List Int) (b : Bucket) (hI : 0 < b.refillInterval)
    (h : ∀ t ∈ ts, t < b.lastRefill + b.refillInterval) :
    (admitLog b ts).map Prod.snd
      = List.replicate (min b.availableTokens ts.length) true
        ++ List.replicate (ts.length - b.availableTokens) false := by
  induction ts generalizing b with
  | nil => simp [admitLog]
  | cons now rest ih =>
    have hnow := Admit_of_lt b now hI (h now (List.mem_cons_self now rest))
    have hrest : ∀ t ∈ rest, t < b.lastRefill + b.refillInterval :=
      fun t ht => h t (List.mem_cons_of_mem now ht)
    rw [admitLog, List.map_cons, hnow]
    by_cases htok : b.availableTokens > 0
    · simp only [htok, if_true]
      rw [ih { b with availableTokens := b.availableTokens - 1 } hI hrest]
      simp only [List.length_cons]
      have e1 : min b.availableTokens (rest.length + 1)
          = min (b.availableTokens - 1) rest.length + 1 := by omega
      have e2 : rest.length + 1 - b.availableTokens = rest.length - (b.availableTokens - 1) := by
        omega
      rw [e1, e2, List.replicate_succ, List.cons_append]
    · simp only [htok, if_false]
      rw [ih b hI hrest]
      have h0 : b.availableTokens = 0 := by omega
      simp [h0, List.replicate_succ]

theorem v1Limiter_interval (created : Int) : (v1Limiter created).refillInterval = 1 * Minute := rfl

theorem v1Limiter_interval_pos (created : Int) : 0 < (v1Limiter created).refillInterval := by
  rw [v1Limiter_interval]
  decide

theorem refill_contains (b : Bucket) (now : Int) (hI : 0 < b.refillInterval)
    (h : b.lastRefill ≤ now) :
    (refill b now).refillInterval = b.refillInterval ∧
    (refill b now).lastRefill ≤ now ∧ now < (refill b now).lastRefill + b.refillInterval := by
  have he : max 0 (now - b.lastRefill) = now - b.lastRefill := max_eq_right (by omega)
  unfold refill
  simp only [he]
  split
  · have h1 := Int.ediv_mul_le (now - b.lastRefill) (ne_of_gt hI)
    have h2 := Int.lt_ediv_add_one_mul_self (now - b.lastRefill) hI
    refine ⟨rfl, ?_, ?_⟩
    · simp only; omega
    · simp only
      have h3 : ((now - b.lastRefill) / b.refillInterval + 1) * b.refillInterval
          = (now - b.lastRefill) / b.refillInterval * b.refillInterval + b.refillInterval := by
        ring
      omega
  · next hlt => exact ⟨rfl, h, by omega⟩

theorem admitLog_interval_contains (ts : List Int) (b : Bucket) (prev : Int)
    (hI : 0 < b.refillInterval) (hprev : b.lastRefill ≤ prev)
    (hmono : List.Chain (fun x y => x ≤ y) prev ts) :
    ∀ p ∈ List.zip ts (admitLog b ts), p.2.1 ≤ p.1 ∧ p.1 < p.2.1 + b.refillInterval := by
  induction ts generalizing b prev with
  | nil => simp [admitLog]
  | cons now rest ih =>
    rw [List.chain_cons] at hmono
    obtain ⟨c1, c2, c3⟩ := refill_contains b now hI (le_trans hprev hmono.1)
    obtain ⟨f1, _, f3, _⟩ := Admit_fields b now
    intro p hp
    rw [admitLog, List.zip_cons_cons, List.mem_cons] at hp
    rcases hp with rfl | hp
    · exact ⟨c2, c3⟩
    · have := ih (Admit b now).1 now (by rw [f1, c1]; exact hI) (by rw [f3]; exact c2)
        hmono.2 p hp
      rw [f1, c1] at this
      exact this

/-- Claim C9. The limiter of the `/api/v1` group (capacity 60, refill interval
one minute), serving any sequence of arrival times one after the other, admits
at most 60 requests in any single refill interval; when the clock does not go
backwards, the refill interval a request is served in is the minute that starts
at the interval boundary and contains the arrival time. Starting from the full
bucket, 61 requests that arrive before the end of the interval are answered by
60 admissions followed by one rejection, the last. -/
theorem v1_rate_limit_bound :
    (∀ (created : Int) (arrivals : List Int) (start : Int),
      admittedIn start (admitLog (v1Limiter created) arrivals) ≤ 60) ∧
    (∀ (created : Int) (arrivals : List Int),
      List.Chain (fun x y => x ≤ y) created arrivals →
      ∀ p ∈ List.zip arrivals (admitLog (v1Limiter created) arrivals),
        p.2.1 ≤ p.1 ∧ p.1 < p.2.1 + 1 * Minute) ∧
    (∀ (created : Int) (arrivals : List Int), arrivals.length = 60 + 1 →
      (∀ t ∈ arrivals, t < created + 1 * Minute) →
      (admitLog (v1Limiter created) arrivals).map Prod.snd
        = List.replicate 60 true ++ [false]) := by
  refine ⟨?_, ?_, ?_⟩
  · intro created arrivals start
    have h := admittedIn_le_remaining arrivals (v1Limiter created) start
      (v1Limiter_interval_pos created) (le_refl _)
    refine le_trans h ?_
    unfold remaining
    split_ifs <;> simp [v1Limiter, RateLimiter]
  · intro created arrivals hmono
    exact admitLog_interval_contains arrivals (v1Limiter created) created
      (v1Limiter_interval_pos created) (le_refl _) hmono
  · intro created arrivals hlen hin
    have h := admitLog_within_interval arrivals (v1Limiter created)
      (v1Limiter_interval_pos created) hin
    rw [h, hlen]
    simp [v1Limiter, RateLimiter]

/-- Claim C9, witness: 61 requests five nanoseconds after the limiter is
created, then one a minute later and one with the clock set back. -/
theorem v1_rate_limit_bound_witness :
    admittedIn 0 (admitLog (v1Limiter 0) (List.replicate 61 5 ++ [Minute, 0])) ≤ 60 ∧
    (∀ p ∈ List.zip [5, 5, Minute] (admitLog (v1Limiter 0) [5, 5, Minute]),
      p.2.1 ≤ p.1 ∧ p.1 < p.2.1 + 1 * Minute) ∧
    (admitLog (v1Limiter 0) (List.replicate 61 5)).map Prod.snd
      = List.replicate 60 true ++ [false] :=
  ⟨v1_rate_limit_bound.1 0 _ 0,
   v1_rate_limit_bound.2.1 0 [5, 5, Minute] (by simp [Minute]),
   v1_rate_limit_bound.2.2 0 (List.replicate 61 5) (by simp) (by
    intro t ht
    rw [List.eq_of_mem_replicate ht]
    decide)⟩

end Middleware
